import Mathlib

/-!
Verification development for the `outdated2` dependency-staleness scanner
(`src/main.rs`).  The program normalizes a package's declared dependencies,
queries the crates.io registry for each registry dependency, selects the
latest non-yanked version, compares it against the declared requirement with
`semver::VersionReq::matches`, deduplicates adjacent per-package results,
groups findings by package and renders a tree-style report.

The embedding translates the pure computational content of the program:
the semver data model and matching (the `semver` 1.x crate the source
delegates to), the latest-version selection loop of `get_latest_from_repo`,
the per-dependency scan pipeline of `main`, and the `Display` rendering of
`CrateOutdated`.  Network effects are abstracted as an explicit registry
environment mapping a crate name to either a parsed response body or a
fetch error.
-/

set_option maxRecDepth 10000

/-- A semantic version, mirroring `semver::Version`: `major.minor.patch`
with optional pre-release and build-metadata identifier lists (the crate
stores the dot-separated identifiers of `Prerelease`/`BuildMetadata`). -/
structure Version where
  major : Nat
  minor : Nat
  patch : Nat
  pre : List String
  build : List String
  deriving DecidableEq

/-- Comparison operators of `semver::Op` (the crate's non-exhaustive enum,
restricted to the variants that exist). -/
inductive Op where
  | Exact
  | Greater
  | GreaterEq
  | Less
  | LessEq
  | Tilde
  | Caret
  | Wildcard
  deriving DecidableEq

/-- One comparator of a version requirement, mirroring `semver::Comparator`. -/
structure Comparator where
  op : Op
  major : Nat
  minor : Option Nat
  patch : Option Nat
  pre : List String
  deriving DecidableEq

/-- A version requirement, mirroring `semver::VersionReq`: a conjunction of
comparators (the empty list is the `*` requirement). -/
structure VersionReq where
  comparators : List Comparator
  deriving DecidableEq

/-- `2^64`, the bound of Rust's `u64`: numeric version components are `u64`
in the `semver` crate and parsing rejects larger values. -/
def u64Bound : Nat := 18446744073709551616

/-- Decimal value of a digit list (most significant digit first). -/
def digitsValue : List Char → Nat → Nat
  | [], acc => acc
  | c :: cs, acc => digitsValue cs (acc * 10 + (c.toNat - 48))

/-- Value of a nonempty all-digit character list, `none` otherwise
(the decimal-literal core of Rust's `str::parse::<u64>`). -/
def charsToNat? (cs : List Char) : Option Nat :=
  if !cs.isEmpty && cs.all Char.isDigit then some (digitsValue cs 0) else none

/-- Rust `str::parse::<u64>` restricted to semver identifiers (which contain
only ASCII alphanumerics and hyphens): succeeds on a nonempty all-digit
sequence whose value fits in a `u64`. -/
def parseU64 (cs : List Char) : Option Nat :=
  match charsToNat? cs with
  | none => none
  | some n => if n < u64Bound then some n else none

/-- Numeric version-core component as parsed by `semver`: nonempty digits,
no leading zero (except `0` itself), value bounded by `u64`. -/
def parseNumericComponent (cs : List Char) : Option Nat :=
  match charsToNat? cs with
  | none => none
  | some n =>
    if cs.length > 1 && cs.head? == some '0' then none
    else if n < u64Bound then some n else none

/-- Characters allowed in semver pre-release/build identifiers:
ASCII alphanumerics and `-`. -/
def isIdentChar (c : Char) : Bool :=
  c.isAlphanum || c == '-'

/-- A valid pre-release identifier: nonempty, identifier characters only,
and if fully numeric it has no leading zero. -/
def validPreIdent (cs : List Char) : Bool :=
  !cs.isEmpty && cs.all isIdentChar &&
    (!(cs.all Char.isDigit) || cs.length == 1 || cs.head? != some '0')

/-- A valid build-metadata identifier: nonempty, identifier characters only
(leading zeros are allowed in build metadata). -/
def validBuildIdent (cs : List Char) : Bool :=
  !cs.isEmpty && cs.all isIdentChar

/-- Split a character list at the first occurrence of `sep`, returning the
part before it and, when `sep` occurs, the whole remainder after it. -/
def splitFirstChar (sep : Char) : List Char → List Char × Option (List Char)
  | [] => ([], none)
  | c :: cs =>
    if c = sep then ([], some cs)
    else
      let r := splitFirstChar sep cs
      (c :: r.1, r.2)

/-- Split a character list on every occurrence of `sep` (Rust
`str::split(sep)`): `n` separators yield `n + 1` pieces, empty pieces
included. -/
def splitOnChar (sep : Char) : List Char → List (List Char)
  | [] => [[]]
  | c :: cs =>
    if c = sep then [] :: splitOnChar sep cs
    else
      match splitOnChar sep cs with
      | [] => [[c]]
      | p :: ps => (c :: p) :: ps

/-- `semver::Version::parse`, as a total function into `Option`: grammar
`major.minor.patch[-pre][+build]` where the first `+` starts the build
metadata and, before it, the first `-` starts the pre-release part. -/
def Version.parse (s : String) : Option Version :=
  let pb := splitFirstChar '+' s.data
  let pp := splitFirstChar '-' pb.1
  match splitOnChar '.' pp.1 with
  | [ma, mi, pa] =>
    match parseNumericComponent ma, parseNumericComponent mi,
        parseNumericComponent pa with
    | some major, some minor, some patch =>
      let preIds : Option (List String) :=
        match pp.2 with
        | none => some []
        | some preChars =>
          let ids := splitOnChar '.' preChars
          if ids.all validPreIdent then some (ids.map String.mk) else none
      let buildIds : Option (List String) :=
        match pb.2 with
        | none => some []
        | some buildChars =>
          let ids := splitOnChar '.' buildChars
          if ids.all validBuildIdent then some (ids.map String.mk) else none
      match preIds, buildIds with
      | some pre, some build => some ⟨major, minor, patch, pre, build⟩
      | _, _ => none
    | _, _, _ => none
  | _ => none

/-- `cargo::util::VersionExt::is_prerelease`: the pre-release part is
nonempty. -/
def Version.is_prerelease (v : Version) : Bool :=
  !v.pre.isEmpty

/-- Join a list of strings with a separator between consecutive elements
(Rust's joining of identifiers with `.` in `Display`). -/
def joinSep (sep : String) : List String → String
  | [] => ""
  | [x] => x
  | x :: y :: rest => x ++ sep ++ joinSep sep (y :: rest)

/-- `Display` of a `semver::Version`:
`major.minor.patch` then `-pre` and `+build` when nonempty. -/
def Version.toString (v : Version) : String :=
  Nat.repr v.major ++ "." ++ Nat.repr v.minor ++ "." ++
    Nat.repr v.patch ++
    (if v.pre.isEmpty then "" else "-" ++ joinSep "." v.pre) ++
    (if v.build.isEmpty then "" else "+" ++ joinSep "." v.build)

/-- Lexicographic comparison of two ASCII character lists, the meaning of
Rust's byte-wise `str::cmp` on semver identifiers. -/
def lexCmp : List Char → List Char → Ordering
  | [], [] => Ordering.eq
  | [], _ :: _ => Ordering.lt
  | _ :: _, [] => Ordering.gt
  | a :: as, b :: bs =>
    if a.toNat < b.toNat then Ordering.lt
    else if b.toNat < a.toNat then Ordering.gt
    else lexCmp as bs

/-- Comparison of two pre-release identifiers, mirroring the body of the
loop in `Ord for semver::Prerelease`: identifiers that parse as `u64`
compare numerically, a numeric identifier is less than an alphanumeric one,
and alphanumeric identifiers compare lexically. -/
def identCmp (x y : String) : Ordering :=
  match parseU64 x.data, parseU64 y.data with
  | some a, some b => compare a b
  | some _, none => Ordering.lt
  | none, some _ => Ordering.gt
  | none, none => lexCmp x.data y.data

/-- Identifier-wise comparison of two nonempty pre-release identifier
lists; a list that is a proper initial segment of the other is smaller. -/
def preCmpCore : List String → List String → Ordering
  | [], [] => Ordering.eq
  | [], _ :: _ => Ordering.lt
  | _ :: _, [] => Ordering.gt
  | x :: xs, y :: ys =>
    match identCmp x y with
    | Ordering.eq => preCmpCore xs ys
    | o => o

/-- `Ord for semver::Prerelease`: the empty pre-release (a real release)
compares greater than any nonempty one; otherwise identifier-wise. -/
def preCmp (a b : List String) : Ordering :=
  match a, b with
  | [], [] => Ordering.eq
  | [], _ :: _ => Ordering.gt
  | _ :: _, [] => Ordering.lt
  | _ :: _, _ :: _ => preCmpCore a b

/-- `a > b` on pre-release parts. -/
def preGt (a b : List String) : Bool :=
  preCmp a b == Ordering.gt

/-- `a < b` on pre-release parts. -/
def preLt (a b : List String) : Bool :=
  preCmp a b == Ordering.lt

/-- `a >= b` on pre-release parts. -/
def preGe (a b : List String) : Bool :=
  preCmp a b != Ordering.lt

/-- `semver::eval::matches_exact`. -/
def matchesExact (cmp : Comparator) (ver : Version) : Bool :=
  ver.major == cmp.major &&
    (match cmp.minor with | none => true | some m => ver.minor == m) &&
    (match cmp.patch with | none => true | some p => ver.patch == p) &&
    ver.pre == cmp.pre

/-- `semver::eval::matches_greater`. -/
def matchesGreater (cmp : Comparator) (ver : Version) : Bool :=
  if ver.major != cmp.major then decide (ver.major > cmp.major)
  else
    match cmp.minor with
    | none => false
    | some minor =>
      if ver.minor != minor then decide (ver.minor > minor)
      else
        match cmp.patch with
        | none => false
        | some patch =>
          if ver.patch != patch then decide (ver.patch > patch)
          else preGt ver.pre cmp.pre

/-- `semver::eval::matches_less`. -/
def matchesLess (cmp : Comparator) (ver : Version) : Bool :=
  if ver.major != cmp.major then decide (ver.major < cmp.major)
  else
    match cmp.minor with
    | none => false
    | some minor =>
      if ver.minor != minor then decide (ver.minor < minor)
      else
        match cmp.patch with
        | none => false
        | some patch =>
          if ver.patch != patch then decide (ver.patch < patch)
          else preLt ver.pre cmp.pre

/-- `semver::eval::matches_tilde`. -/
def matchesTilde (cmp : Comparator) (ver : Version) : Bool :=
  if ver.major != cmp.major then false
  else if (match cmp.minor with
           | none => false
           | some minor => ver.minor != minor) then false
  else
    match cmp.patch with
    | some patch =>
      if ver.patch != patch then decide (ver.patch > patch)
      else preGe ver.pre cmp.pre
    | none => preGe ver.pre cmp.pre

/-- `semver::eval::matches_caret`. -/
def matchesCaret (cmp : Comparator) (ver : Version) : Bool :=
  if ver.major != cmp.major then false
  else
    match cmp.minor with
    | none => true
    | some minor =>
      match cmp.patch with
      | none =>
        if cmp.major > 0 then decide (ver.minor ≥ minor)
        else ver.minor == minor
      | some patch =>
        if cmp.major > 0 then
          if ver.minor != minor then decide (ver.minor > minor)
          else if ver.patch != patch then decide (ver.patch > patch)
          else preGe ver.pre cmp.pre
        else if minor > 0 then
          if ver.minor != minor then false
          else if ver.patch != patch then decide (ver.patch > patch)
          else preGe ver.pre cmp.pre
        else
          if ver.minor != minor || ver.patch != patch then false
          else preGe ver.pre cmp.pre

/-- `semver::eval::matches_impl`: dispatch one comparator on its operator. -/
def matchesImpl (cmp : Comparator) (ver : Version) : Bool :=
  match cmp.op with
  | Op.Exact => matchesExact cmp ver
  | Op.Wildcard => matchesExact cmp ver
  | Op.Greater => matchesGreater cmp ver
  | Op.GreaterEq => matchesExact cmp ver || matchesGreater cmp ver
  | Op.Less => matchesLess cmp ver
  | Op.LessEq => matchesExact cmp ver || matchesLess cmp ver
  | Op.Tilde => matchesTilde cmp ver
  | Op.Caret => matchesCaret cmp ver

/-- `semver::eval::pre_is_compatible`: a comparator tolerates a
pre-release version only at the same `major.minor.patch` and with a
nonempty pre-release of its own. -/
def preIsCompatible (cmp : Comparator) (ver : Version) : Bool :=
  cmp.major == ver.major && cmp.minor == some ver.minor &&
    cmp.patch == some ver.patch && !cmp.pre.isEmpty

/-- `semver::VersionReq::matches` (`eval::matches_req`): every comparator
must match, and a pre-release version additionally needs some comparator
that is pre-release-compatible with it. -/
def VersionReq.matches (req : VersionReq) (ver : Version) : Bool :=
  req.comparators.all (fun cmp => matchesImpl cmp ver) &&
    (ver.pre.isEmpty || req.comparators.any (fun cmp => preIsCompatible cmp ver))

/-- Operator text of `Display for semver::Comparator`. -/
def Op.str : Op → String
  | Op.Exact => "="
  | Op.Greater => ">"
  | Op.GreaterEq => ">="
  | Op.Less => "<"
  | Op.LessEq => "<="
  | Op.Tilde => "~"
  | Op.Caret => "^"
  | Op.Wildcard => ""

/-- `Display for semver::Comparator`. -/
def Comparator.toString (c : Comparator) : String :=
  Op.str c.op ++ Nat.repr c.major ++
    (match c.minor with
     | some m =>
       "." ++ Nat.repr m ++
         (match c.patch with
          | some p =>
            "." ++ Nat.repr p ++
              (if c.pre.isEmpty then ""
               else "-" ++ joinSep "." c.pre)
          | none => if c.op == Op.Wildcard then ".*" else "")
     | none => if c.op == Op.Wildcard then ".*" else "")

/-- `Display for semver::VersionReq`: `*` when there are no comparators,
otherwise the comparators joined by a comma and a space. -/
def VersionReq.toString (r : VersionReq) : String :=
  if r.comparators.isEmpty then "*"
  else joinSep ", " (r.comparators.map Comparator.toString)

/-- The claim-relevant fields of one record of the crates.io
`/versions` response (`CratesResp` in the source; the remaining
deserialized fields — id, download path, readme, features, license,
links, size, publisher, audit actions — are accepted but unused by the
program logic and are omitted here). -/
structure CratesResp where
  crate_name : String
  num : String
  updated_at : String
  yanked : Bool
  deriving DecidableEq

/-- The selection outcome of one registry query (`CratesIoResp`). -/
structure CratesIoResp where
  crate_name : String
  version : Version
  last_updated : String
  deriving DecidableEq

/-- `Default for CratesIoResp`: empty crate name, version `0.0.0`,
empty timestamp. -/
def CratesIoResp.default : CratesIoResp :=
  { crate_name := "", version := ⟨0, 0, 0, [], []⟩, last_updated := "" }

/-- The distinct failure modes of one registry fetch: network failure,
non-UTF8 body, malformed JSON, and an unparseable version string in the
response (the four `context` sites of `get_latest_from_repo`). -/
inductive FetchError where
  | network
  | encoding
  | deserialize
  | versionParse
  deriving DecidableEq

deriving instance DecidableEq for Except

/-- The registry environment: for each crate name, either the parsed
record list of the `/versions` response body or the fetch error
(network / encoding / deserialization) that the transport and parsing
steps of `get_latest_from_repo` produced. -/
abbrev Registry : Type := String → Except FetchError (List CratesResp)

/-- `updated_at.split('.').collect::<Vec<&str>>()[0]`: the timestamp up to
(excluding) its first `.`, dropping any fractional-second part. -/
def truncTimestamp (s : String) : String :=
  String.mk (splitFirstChar '.' s.data).1

/-- The loop body of `get_latest_from_repo`, running over the reversed
record list: a yanked record is skipped, any other record overwrites the
current selection (after its version string is parsed, a failure being a
fatal error for this fetch; the `is_prerelease` check in the source has an
empty body and alters nothing). -/
def selectLatestGo : List CratesResp → CratesIoResp → Except FetchError CratesIoResp
  | [], latest => Except.ok latest
  | version :: rest, latest =>
    if version.yanked then
      selectLatestGo rest latest
    else
      match Version.parse version.num with
      | none => Except.error FetchError.versionParse
      | some v =>
        selectLatestGo rest
          { crate_name := version.crate_name
            version := v
            last_updated := truncTimestamp version.updated_at }

/-- The selection policy of `get_latest_from_repo` applied to a parsed
response: scan the records in reverse of received order starting from the
default selection. -/
def selectLatest (versions : List CratesResp) : Except FetchError CratesIoResp :=
  selectLatestGo versions.reverse CratesIoResp.default

/-- `get_latest_from_repo`: fetch and parse the `/versions` response for
one crate name (abstracted into the registry environment), then apply the
selection policy. -/
def get_latest_from_repo (reg : Registry) (crate_name : String) :
    Except FetchError CratesIoResp :=
  match reg crate_name with
  | Except.error e => Except.error e
  | Except.ok versions => selectLatest versions

/-- `is_up_to_date`: delegate to `semver::VersionReq::matches`. -/
def is_up_to_date (ver_req : VersionReq) (latest : Version) : Bool :=
  VersionReq.matches ver_req latest

/-- Source classification of a dependency: local filesystem path versus
registry/other (the only aspect of `cargo::core::SourceId` the program
consults, through `SourceId::is_path`). -/
inductive SourceKind where
  | registry
  | localPath
  | other
  deriving DecidableEq

/-- `SourceId::is_path`. -/
def SourceKind.is_path : SourceKind → Bool
  | SourceKind.localPath => true
  | SourceKind.registry => false
  | SourceKind.other => false

/-- One normalized dependency (`Dep`): name, canonical version
requirement, and source. -/
structure Dep where
  name : String
  version_req : VersionReq
  source_id : SourceKind
  deriving DecidableEq

/-- One outdated finding (`OutdatedDependency`). -/
structure OutdatedDependency where
  dependency_name : String
  version_in_toml : String
  latest_version : String
  deriving DecidableEq

/-- The per-dependency closure of `main`: a local-path dependency is not
queried and yields nothing; otherwise the latest version is fetched (a
fetch error silently yields nothing, the `.ok()?` of the source) and a
finding is produced exactly when the declared requirement does not match
the latest version. -/
def processDep (reg : Registry) (crate_name : String) (dep : Dep) :
    Option (String × OutdatedDependency) :=
  if !dep.source_id.is_path then
    match get_latest_from_repo reg dep.name with
    | Except.error _ => none
    | Except.ok dep_latest =>
      if !is_up_to_date dep.version_req dep_latest.version then
        some (crate_name,
          { dependency_name := dep.name
            version_in_toml := VersionReq.toString dep.version_req
            latest_version := Version.toString dep_latest.version })
      else none
  else none

/-- Rust `Vec::dedup`: remove consecutive repeated elements, keeping one
representative per run. -/
def vecDedup {α : Type} [DecidableEq α] : List α → List α
  | [] => []
  | [a] => [a]
  | a :: b :: t => if a = b then vecDedup (b :: t) else a :: vecDedup (b :: t)

/-- The per-package stage of `main`: map every dependency of the package
to its optional finding, then `dedup` the per-dependency result list. -/
def processPackage (reg : Registry) (entry : String × List Dep) :
    List (Option (String × OutdatedDependency)) :=
  vecDedup (entry.2.map (processDep reg entry.1))

/-- The scan pipeline of `main`: per-package results, flattened, with the
empty results dropped (`filter(is_some).map(unwrap)`). -/
def scan (reg : Registry) (deps : List (String × List Dep)) :
    List (String × OutdatedDependency) :=
  ((deps.map (processPackage reg)).flatten).filterMap id

/-- Append one finding to its package's entry of the report map
(`outdated.entry(name).or_insert(Vec::new())` followed by `push`),
creating the entry on first use.  The map is represented as an
association list in key-insertion order. -/
def insertFinding (m : List (String × List OutdatedDependency))
    (k : String) (f : OutdatedDependency) :
    List (String × List OutdatedDependency) :=
  match m with
  | [] => [(k, [f])]
  | (k', fs) :: rest =>
    if k' = k then (k', fs ++ [f]) :: rest
    else (k', fs) :: insertFinding rest k f

/-- The grouping loop of `main`: fold the scan results into the report
map. -/
def aggregate (x : List (String × OutdatedDependency)) :
    List (String × List OutdatedDependency) :=
  x.foldl (fun m p => insertFinding m p.1 p.2) []

/-- One rendered finding line of `Display for CrateOutdated`:
tab, tree marker, then `name: declared -> latest`. -/
def renderLine (marker : String) (d : OutdatedDependency) : String :=
  "\t" ++ marker ++ " " ++ d.dependency_name ++ ": " ++
    d.version_in_toml ++ " -> " ++ d.latest_version ++ "\n"

/-- The per-package block of `Display for CrateOutdated`: the package
name line followed by one line per finding, with the source's three-way
branch on the finding index choosing the tree marker. -/
def renderPackage (crate_name : String) (outdated_dep : List OutdatedDependency) :
    String :=
  crate_name ++ "\n" ++
    String.join (outdated_dep.enum.map (fun p =>
      if p.1 = 0 ∧ outdated_dep.length > 1 then renderLine "├──" p.2
      else if p.1 > 0 ∧ p.1 ≠ outdated_dep.length - 1 then renderLine "├──" p.2
      else renderLine "└──" p.2))

/-- `Display for CrateOutdated`: concatenate the per-package blocks in
the map's iteration order.  The source iterates a freshly seeded
`HashMap`, whose per-run entry order the program does not fix; the
association list here presents the same entries in key-insertion order,
which stands for one possible iteration order.  Facts about a single
block or about the empty report do not depend on this choice; the order
of blocks across packages does, and no theorem below relies on it. -/
def renderReport (m : List (String × List OutdatedDependency)) : String :=
  String.join (m.map (fun e => renderPackage e.1 e.2))

/-- The output step of `main`: the fixed message when the report map is
empty, otherwise the rendered report. -/
def programOutput (m : List (String × List OutdatedDependency)) : String :=
  if m.isEmpty then "All dependencies are up-to-date!" else renderReport m

/-- End-to-end output of one scan for a given dependency map
presentation and registry environment. -/
def mainOutput (deps : List (String × List Dep)) (reg : Registry) : String :=
  programOutput (aggregate (scan reg deps))

/-- `main`: only manifest discovery (`create_cargo_manifest`, abstracted
as an `Except` input) can fail; with a manifest, the scan runs to
completion and prints its output. -/
def mainRun (manifest : Except String (List (String × List Dep)))
    (reg : Registry) : Except String String :=
  match manifest with
  | Except.error e => Except.error e
  | Except.ok deps => Except.ok (mainOutput deps reg)

/-! ### Helper lemmas -/

/-- The selection data a non-yanked record contributes when its version
string parses (specification-side view of the loop body). -/
def recordInfo (r : CratesResp) : CratesIoResp :=
  { crate_name := r.crate_name
    version := (Version.parse r.num).getD ⟨0, 0, 0, [], []⟩
    last_updated := truncTimestamp r.updated_at }

theorem selectLatestGo_append (l₁ l₂ : List CratesResp) (acc : CratesIoResp) :
    selectLatestGo (l₁ ++ l₂) acc =
      match selectLatestGo l₁ acc with
      | Except.error e => Except.error e
      | Except.ok acc' => selectLatestGo l₂ acc' := by
  induction l₁ generalizing acc with
  | nil => simp [selectLatestGo]
  | cons r t ih =>
    by_cases hy : r.yanked = true
    · simp [selectLatestGo, hy, ih]
    · simp only [Bool.not_eq_true] at hy
      cases hp : Version.parse r.num with
      | none => simp [selectLatestGo, hy, hp]
      | some v => simp [selectLatestGo, hy, hp, ih]

theorem selectLatestGo_rev (records : List CratesResp) (acc : CratesIoResp)
    (hparse : ∀ r ∈ records, r.yanked = false → (Version.parse r.num).isSome = true) :
    selectLatestGo records.reverse acc =
      Except.ok (match records.find? (fun r => !r.yanked) with
        | some r => recordInfo r
        | none => acc) := by
  induction records with
  | nil => simp [selectLatestGo]
  | cons r t ih =>
    have hrev : (r :: t).reverse = t.reverse ++ [r] := by simp
    rw [hrev, selectLatestGo_append,
      ih (fun x hx hxy => hparse x (List.mem_cons_of_mem r hx) hxy)]
    by_cases hy : r.yanked = true
    · simp [selectLatestGo, hy, List.find?_cons]
    · simp only [Bool.not_eq_true] at hy
      have hs : (Version.parse r.num).isSome = true :=
        hparse r (List.mem_cons_self r t) hy
      obtain ⟨v, hv⟩ := Option.isSome_iff_exists.mp hs
      simp [selectLatestGo, hy, hv, List.find?_cons, recordInfo]

theorem selectLatest_spec (records : List CratesResp)
    (hparse : ∀ r ∈ records, r.yanked = false → (Version.parse r.num).isSome = true) :
    selectLatest records =
      Except.ok (match records.find? (fun r => !r.yanked) with
        | some r => recordInfo r
        | none => CratesIoResp.default) :=
  selectLatestGo_rev records CratesIoResp.default hparse

theorem vecDedup_head? {α : Type} [DecidableEq α] :
    ∀ (a : α) (t : List α), (vecDedup (a :: t)).head? = some a
  | a, [] => by simp [vecDedup]
  | a, b :: t => by
    by_cases h : a = b
    · rw [show vecDedup (a :: b :: t) = vecDedup (b :: t) by simp [vecDedup, h]]
      rw [vecDedup_head? b t, h]
    · simp [vecDedup, h]

theorem vecDedup_sublist {α : Type} [DecidableEq α] :
    ∀ l : List α, (vecDedup l).Sublist l
  | [] => by simp [vecDedup]
  | [a] => by simp [vecDedup]
  | a :: b :: t => by
    by_cases h : a = b
    · simpa [vecDedup, h] using (vecDedup_sublist (b :: t)).cons a
    · simpa [vecDedup, h] using (vecDedup_sublist (b :: t)).cons₂ a

theorem vecDedup_chain' {α : Type} [DecidableEq α] :
    ∀ l : List α, List.Chain' (fun x y => x ≠ y) (vecDedup l)
  | [] => by simp [vecDedup]
  | [a] => by simp [vecDedup]
  | a :: b :: t => by
    by_cases h : a = b
    · simpa [vecDedup, h] using vecDedup_chain' (b :: t)
    · rw [show vecDedup (a :: b :: t) = a :: vecDedup (b :: t) by simp [vecDedup, h]]
      rw [List.chain'_cons']
      refine ⟨?_, vecDedup_chain' (b :: t)⟩
      intro y hy
      rw [vecDedup_head? b t] at hy
      simp only [Option.mem_def, Option.some.injEq] at hy
      subst hy
      exact h

theorem mem_vecDedup {α : Type} [DecidableEq α] :
    ∀ (l : List α) (x : α), x ∈ l → x ∈ vecDedup l
  | [], x, h => absurd h (List.not_mem_nil x)
  | [a], x, h => by simpa [vecDedup] using h
  | a :: b :: t, x, h => by
    by_cases hab : a = b
    · rw [show vecDedup (a :: b :: t) = vecDedup (b :: t) by simp [vecDedup, hab]]
      rcases List.mem_cons.mp h with rfl | h'
      · exact mem_vecDedup (b :: t) x (hab ▸ List.mem_cons_self b t)
      · exact mem_vecDedup (b :: t) x h'
    · rw [show vecDedup (a :: b :: t) = a :: vecDedup (b :: t) by simp [vecDedup, hab]]
      rcases List.mem_cons.mp h with rfl | h'
      · exact List.mem_cons_self x _
      · exact List.mem_cons_of_mem a (mem_vecDedup (b :: t) x h')

theorem vecDedup_eq_of_chain' {α : Type} [DecidableEq α] :
    ∀ l : List α, List.Chain' (fun x y => x ≠ y) l → vecDedup l = l
  | [], _ => rfl
  | [_], _ => rfl
  | a :: b :: t, h => by
    have hab : a ≠ b := (List.chain'_cons.mp h).1
    have ht := (List.chain'_cons.mp h).2
    simp [vecDedup, hab, vecDedup_eq_of_chain' (b :: t) ht]

theorem processDep_congr (reg reg' : Registry) (pkg : String) (dep : Dep)
    (h : reg dep.name = reg' dep.name) :
    processDep reg pkg dep = processDep reg' pkg dep := by
  unfold processDep get_latest_from_repo
  rw [h]

theorem scan_congr (reg reg' : Registry) (deps : List (String × List Dep))
    (h : ∀ pkg ds, (pkg, ds) ∈ deps → ∀ d ∈ ds, reg d.name = reg' d.name) :
    scan reg deps = scan reg' deps := by
  unfold scan
  congr 2
  apply List.map_congr_left
  intro e he
  unfold processPackage
  congr 1
  apply List.map_congr_left
  intro d hd
  exact processDep_congr reg reg' e.1 d (h e.1 e.2 he d hd)

theorem renderMarker_eq (len i : Nat) (d : OutdatedDependency) :
    (if i = 0 ∧ len > 1 then renderLine "├──" d
     else if i > 0 ∧ i ≠ len - 1 then renderLine "├──" d
     else renderLine "└──" d) =
    (if i = len - 1 then renderLine "└──" d else renderLine "├──" d) := by
  split_ifs <;> first | rfl | omega

/-- The rendering rule as the specification states it: each finding line
carries the continuing tree marker except the last one. -/
def specRenderPackage (name : String) (fs : List OutdatedDependency) : String :=
  name ++ "\n" ++
    String.join (fs.enum.map (fun p =>
      if p.1 = fs.length - 1 then renderLine "└──" p.2 else renderLine "├──" p.2))

theorem renderPackage_eq_spec (name : String) (fs : List OutdatedDependency) :
    renderPackage name fs = specRenderPackage name fs := by
  unfold renderPackage specRenderPackage
  congr 2
  apply List.map_congr_left
  intro p _
  exact renderMarker_eq fs.length p.1 p.2

theorem selectLatest_of_all_yanked (records : List CratesResp)
    (h : ∀ r ∈ records, r.yanked = true) :
    selectLatest records = Except.ok CratesIoResp.default := by
  have hparse : ∀ r ∈ records, r.yanked = false →
      (Version.parse r.num).isSome = true := by
    intro r hr hry
    rw [h r hr] at hry
    cases hry
  rw [selectLatest_spec records hparse]
  have hnone : records.find? (fun r => !r.yanked) = none := by
    rw [List.find?_eq_none]
    intro x hx
    simp [h x hx]
  rw [hnone]

theorem processDep_some_elim (reg : Registry) (pkg : String) (dep : Dep)
    (pr : String × OutdatedDependency)
    (h : processDep reg pkg dep = some pr) :
    dep.source_id.is_path = false ∧ pr.1 = pkg ∧
      pr.2.dependency_name = dep.name := by
  unfold processDep at h
  by_cases hp : dep.source_id.is_path = true
  · rw [hp] at h
    simp at h
  · simp only [Bool.not_eq_true] at hp
    rw [hp] at h
    refine ⟨hp, ?_⟩
    rcases hg : get_latest_from_repo reg dep.name with e | latest <;> rw [hg] at h
    · simp at h
    · by_cases hu : is_up_to_date dep.version_req latest.version = true
      · simp [hu] at h
      · simp only [Bool.not_eq_true] at hu
        simp only [hu, Bool.not_false, Bool.not_true, if_true, if_false,
          Option.some.injEq] at h
        rw [← h]
        exact ⟨rfl, rfl⟩

theorem processDep_ok_eq (reg : Registry) (pkg : String) (dep : Dep)
    (latest : CratesIoResp)
    (hpath : dep.source_id.is_path = false)
    (hlat : get_latest_from_repo reg dep.name = Except.ok latest) :
    processDep reg pkg dep =
      if is_up_to_date dep.version_req latest.version then none
      else some (pkg, { dependency_name := dep.name,
                        version_in_toml := VersionReq.toString dep.version_req,
                        latest_version := Version.toString latest.version }) := by
  unfold processDep
  rw [hpath, hlat]
  by_cases hu : is_up_to_date dep.version_req latest.version = true
  · simp [hu]
  · simp only [Bool.not_eq_true] at hu
    simp [hu]

/-! ### Registry example inputs -/

def exRecordsC1 : List CratesResp :=
  [ ⟨"demo", "2.0.0", "2021-05-01T10:00:00.000Z", true⟩,
    ⟨"demo", "1.0.0", "2020-01-02T03:04:05.678Z", false⟩ ]

def exYankedRecords : List CratesResp :=
  [ ⟨"foo", "2.0.0", "2021-05-01T10:00:00.000Z", true⟩,
    ⟨"foo", "not-a-version", "2020-01-01T00:00:00.000Z", true⟩ ]

def exRegAllYanked : Registry := fun _ => Except.ok exYankedRecords

def exDepCaret : Dep :=
  ⟨"foo", ⟨[⟨Op.Caret, 1, some 0, some 0, []⟩]⟩, SourceKind.registry⟩

def exDepStar : Dep := ⟨"bar", ⟨[]⟩, SourceKind.registry⟩

def exPreRecords : List CratesResp :=
  [ ⟨"demo", "2.0.0-alpha", "2021-01-01T00:00:00.123Z", false⟩,
    ⟨"demo", "1.0.0", "2020-06-01T00:00:00.000Z", false⟩ ]

def exRegPre : Registry := fun _ => Except.ok exPreRecords

def exDepStable : Dep :=
  ⟨"demo", ⟨[⟨Op.Caret, 1, some 0, none, []⟩]⟩, SourceKind.registry⟩

/-! ### Claim theorems -/

/-- C1: the selection policy of `get_latest_from_repo` scans the response
records in reverse of received order, skips every withdrawn record and
keeps overwriting the selection with each non-withdrawn one; provided every
non-withdrawn version string parses and some non-withdrawn record exists,
the selected result is built from exactly the first non-yanked record in
received (most-recent-first) order — in particular a withdrawn version is
never selected. -/
theorem selection_picks_first_non_yanked (records : List CratesResp)
    (hparse : ∀ r ∈ records, r.yanked = false →
      (Version.parse r.num).isSome = true)
    (hex : ∃ r ∈ records, r.yanked = false) :
    ∃ r v, records.find? (fun r => !r.yanked) = some r ∧ r.yanked = false ∧
      Version.parse r.num = some v ∧
      selectLatest records =
        Except.ok { crate_name := r.crate_name, version := v,
                    last_updated := truncTimestamp r.updated_at } := by
  have hsome : (records.find? (fun r => !r.yanked)).isSome = true := by
    rw [List.find?_isSome]
    obtain ⟨r, hr, hry⟩ := hex
    exact ⟨r, hr, by simp [hry]⟩
  obtain ⟨r, hr⟩ := Option.isSome_iff_exists.mp hsome
  have hry : r.yanked = false := by simpa using List.find?_some hr
  have hmem : r ∈ records := List.mem_of_find?_eq_some hr
  obtain ⟨v, hv⟩ := Option.isSome_iff_exists.mp (hparse r hmem hry)
  refine ⟨r, v, hr, hry, hv, ?_⟩
  rw [selectLatest_spec records hparse, hr]
  simp [recordInfo, hv]

theorem selection_picks_first_non_yanked_witness :
    ∃ r v, exRecordsC1.find? (fun r => !r.yanked) = some r ∧
      r.yanked = false ∧ Version.parse r.num = some v ∧
      selectLatest exRecordsC1 =
        Except.ok { crate_name := r.crate_name, version := v,
                    last_updated := truncTimestamp r.updated_at } :=
  selection_picks_first_non_yanked exRecordsC1 (by decide) (by decide)

/-- C4: when every record of the response is withdrawn, the selection
returns success with the default result: empty crate name, version
`0.0.0`, empty timestamp. -/
theorem all_yanked_selects_default (records : List CratesResp)
    (h : ∀ r ∈ records, r.yanked = true) :
    selectLatest records =
      Except.ok { crate_name := "", version := ⟨0, 0, 0, [], []⟩,
                  last_updated := "" } :=
  selectLatest_of_all_yanked records h

theorem all_yanked_selects_default_witness :
    selectLatest exYankedRecords =
      Except.ok { crate_name := "", version := ⟨0, 0, 0, [], []⟩,
                  last_updated := "" } :=
  all_yanked_selects_default exYankedRecords (by decide)

/-- C7: an all-withdrawn response is a successful fetch of the default
latest version `0.0.0`, which then reaches freshness evaluation: the
dependency is reported outdated with latest version `0.0.0` exactly when
its declared requirement does not match version `0.0.0`. -/
theorem all_yanked_default_reaches_evaluation (reg : Registry) (pkg : String)
    (dep : Dep) (records : List CratesResp)
    (hpath : dep.source_id.is_path = false)
    (hreg : reg dep.name = Except.ok records)
    (hy : ∀ r ∈ records, r.yanked = true) :
    processDep reg pkg dep =
      if is_up_to_date dep.version_req ⟨0, 0, 0, [], []⟩ then none
      else some (pkg, { dependency_name := dep.name,
                        version_in_toml := VersionReq.toString dep.version_req,
                        latest_version := "0.0.0" }) := by
  have hlat : get_latest_from_repo reg dep.name = Except.ok CratesIoResp.default := by
    unfold get_latest_from_repo
    rw [hreg]
    exact selectLatest_of_all_yanked records hy
  exact processDep_ok_eq reg pkg dep CratesIoResp.default hpath hlat

theorem all_yanked_default_reaches_evaluation_witness :
    processDep exRegAllYanked "app" exDepCaret =
      some ("app", ⟨"foo", "^1.0.0", "0.0.0"⟩) ∧
    processDep exRegAllYanked "lib" exDepStar = none := by
  constructor
  · rw [all_yanked_default_reaches_evaluation exRegAllYanked "app" exDepCaret
      exYankedRecords rfl rfl (by decide)]
    decide
  · rw [all_yanked_default_reaches_evaluation exRegAllYanked "lib" exDepStar
      exYankedRecords rfl rfl (by decide)]
    decide

/-- C10: the selection does not restrict to the declared dependency's
release channel: with a stable `^1.0` requirement and a most-recent
non-withdrawn registry version `2.0.0-alpha`, the pre-release is selected
as latest and the dependency is reported outdated against it. -/
theorem prerelease_selected_and_reported :
    selectLatest exPreRecords =
      Except.ok ⟨"demo", ⟨2, 0, 0, ["alpha"], []⟩, "2021-01-01T00:00:00"⟩ ∧
    Version.is_prerelease ⟨2, 0, 0, ["alpha"], []⟩ = true ∧
    is_up_to_date exDepStable.version_req ⟨2, 0, 0, ["alpha"], []⟩ = false ∧
    processDep exRegPre "app" exDepStable =
      some ("app", ⟨"demo", "^1.0", "2.0.0-alpha"⟩) :=
  ⟨by decide, by decide, by decide, by decide⟩

/-- C2: `is_up_to_date` returns exactly `VersionReq::matches`, whose
semantics exclude a pre-release version from matching unless some
comparator is pre-release-compatible with it. -/
theorem is_up_to_date_eq_matches (r : VersionReq) (v : Version) :
    is_up_to_date r v = VersionReq.matches r v ∧
    (v.pre ≠ [] → (∀ c ∈ r.comparators, preIsCompatible c v = false) →
      VersionReq.matches r v = false) := by
  refine ⟨rfl, ?_⟩
  intro hpre hc
  unfold VersionReq.matches
  have h1 : v.pre.isEmpty = false := by
    cases hv : v.pre with
    | nil => exact absurd hv hpre
    | cons a t => rfl
  have h2 : r.comparators.any (fun cmp => preIsCompatible cmp v) = false := by
    rw [List.any_eq_false]
    intro c hcm
    simp [hc c hcm]
  rw [h1, h2]
  simp

def exReqStar : VersionReq := ⟨[]⟩

def exVerPre : Version := ⟨1, 0, 0, ["alpha"], []⟩

theorem is_up_to_date_eq_matches_witness :
    is_up_to_date exReqStar exVerPre = VersionReq.matches exReqStar exVerPre ∧
    VersionReq.matches exReqStar exVerPre = false :=
  ⟨(is_up_to_date_eq_matches exReqStar exVerPre).1,
   (is_up_to_date_eq_matches exReqStar exVerPre).2 (by decide) (by decide)⟩

def exDepPath : Dep :=
  ⟨"local-util", ⟨[⟨Op.Caret, 1, some 0, none, []⟩]⟩, SourceKind.localPath⟩

/-- C3: a dependency whose source is a local filesystem path yields no
result for every registry environment (it is never queried), and every
finding of the scan originates from some non-local-path dependency of the
input, carrying that dependency's name. -/
theorem local_path_never_queried_nor_reported (reg : Registry)
    (deps : List (String × List Dep)) :
    (∀ (pkg : String) (dep : Dep), dep.source_id.is_path = true →
        processDep reg pkg dep = none) ∧
    (∀ (pkg : String) (f : OutdatedDependency), (pkg, f) ∈ scan reg deps →
        ∃ ds dep, (pkg, ds) ∈ deps ∧ dep ∈ ds ∧
          dep.source_id.is_path = false ∧ f.dependency_name = dep.name ∧
          processDep reg pkg dep = some (pkg, f)) := by
  constructor
  · intro pkg dep h
    unfold processDep
    rw [h]
    rfl
  · intro pkg f hmem
    unfold scan at hmem
    rw [List.mem_filterMap] at hmem
    obtain ⟨o, ho, hoid⟩ := hmem
    simp only [id_eq] at hoid
    subst hoid
    rw [List.mem_flatten] at ho
    obtain ⟨l, hl, hol⟩ := ho
    rw [List.mem_map] at hl
    obtain ⟨entry, hentry, rfl⟩ := hl
    have hol' : some (pkg, f) ∈ entry.2.map (processDep reg entry.1) :=
      (vecDedup_sublist _).subset hol
    rw [List.mem_map] at hol'
    obtain ⟨dep, hdep, hdo⟩ := hol'
    obtain ⟨hp, hpk, hnm⟩ := processDep_some_elim reg entry.1 dep (pkg, f) hdo
    have hpk' : pkg = entry.1 := hpk
    refine ⟨entry.2, dep, ?_, hdep, hp, hnm, ?_⟩
    · rw [hpk', Prod.mk.eta]
      exact hentry
    · rw [← hpk'] at hdo
      exact hdo

theorem local_path_never_queried_nor_reported_witness :
    processDep exRegPre "lib" exDepPath = none :=
  (local_path_never_queried_nor_reported exRegPre []).1 "lib" exDepPath rfl

/-- C5: a failed registry fetch silently drops exactly that dependency: a
fetch error makes the dependency's result empty, a dependency whose own
response is unchanged is unaffected by any other response, and with any
registry environment whatsoever the run still succeeds with a report. -/
theorem fetch_failure_drops_only_that_dep (reg reg' : Registry)
    (deps : List (String × List Dep)) (pkg : String) (dep dep' : Dep) :
    (∀ e : FetchError, get_latest_from_repo reg dep.name = Except.error e →
        processDep reg pkg dep = none) ∧
    (reg dep'.name = reg' dep'.name →
        processDep reg pkg dep' = processDep reg' pkg dep') ∧
    (∃ out : String, mainRun (Except.ok deps) reg = Except.ok out) := by
  refine ⟨?_, processDep_congr reg reg' pkg dep', ⟨mainOutput deps reg, rfl⟩⟩
  intro e he
  unfold processDep
  rw [he]
  cases hp : dep.source_id.is_path <;> simp

def exRegFail : Registry := fun _ => Except.error FetchError.network

def exDepPlain : Dep := ⟨"foo", ⟨[]⟩, SourceKind.registry⟩

theorem fetch_failure_drops_only_that_dep_witness :
    processDep exRegFail "app" exDepPlain = none ∧
    (∃ out : String, mainRun (Except.ok [("app", [exDepPlain])]) exRegFail =
      Except.ok out) :=
  ⟨(fetch_failure_drops_only_that_dep exRegFail exRegFail [] "app" exDepPlain
      exDepPlain).1 FetchError.network rfl,
   (fetch_failure_drops_only_that_dep exRegFail exRegFail
      [("app", [exDepPlain])] "app" exDepPlain exDepPlain).2.2⟩

/-- C6: an empty report renders as exactly the fixed up-to-date message;
a nonempty report renders the tree, and each package block is the package
name line followed by one line per finding of the form
`name: declared -> latest`, every line carrying the continuing marker
except the last, which carries the closing marker (a single finding gets
the closing marker). -/
theorem report_rendering_format :
    programOutput [] = "All dependencies are up-to-date!" ∧
    (∀ m : List (String × List OutdatedDependency), m ≠ [] →
        programOutput m = renderReport m) ∧
    (∀ (name : String) (fs : List OutdatedDependency),
        renderPackage name fs = specRenderPackage name fs) := by
  refine ⟨rfl, ?_, renderPackage_eq_spec⟩
  intro m hm
  unfold programOutput
  rw [if_neg (fun h => hm (List.isEmpty_iff.mp h))]

def exFinding : OutdatedDependency := ⟨"regex", "^0.1", "1.3.0"⟩

def exFinding2 : OutdatedDependency := ⟨"serde", "^1.0", "2.0.0"⟩

def exReport : List (String × List OutdatedDependency) :=
  [("app", [exFinding, exFinding2])]

theorem report_rendering_format_witness :
    programOutput exReport = renderReport exReport ∧
    renderPackage "app" [exFinding, exFinding2] =
      specRenderPackage "app" [exFinding, exFinding2] ∧
    renderPackage "app" [exFinding, exFinding2] =
      "app\n\t├── regex: ^0.1 -> 1.3.0\n\t└── serde: ^1.0 -> 2.0.0\n" ∧
    renderPackage "app" [exFinding] = "app\n\t└── regex: ^0.1 -> 1.3.0\n" :=
  ⟨report_rendering_format.2.1 exReport (by decide),
   report_rendering_format.2.2 "app" [exFinding, exFinding2],
   by decide, by decide⟩

def exRegNine : Registry := fun _ =>
  Except.ok [⟨"x", "9.0.0", "2022-01-01T00:00:00.000Z", false⟩]

def exDepA : Dep :=
  ⟨"alpha-dep", ⟨[⟨Op.Caret, 1, some 0, none, []⟩]⟩, SourceKind.registry⟩

def exDepB : Dep :=
  ⟨"beta-dep", ⟨[⟨Op.Caret, 1, some 0, none, []⟩]⟩, SourceKind.registry⟩

def exDeps1 : List (String × List Dep) := [("pa", [exDepA]), ("pb", [exDepB])]

def exDeps2 : List (String × List Dep) := [("pb", [exDepB]), ("pa", [exDepA])]

/-- C8 counterexample: two presentations of the same package-dependency
mapping (the same entries, permuted — as two runs of the unordered hash
containers may present them) produce different rendered output for an
unchanged registry, so the end-to-end scan is not a function of the
mapping alone, rendered output order included. -/
theorem scan_order_sensitivity_counterexample :
    List.Perm exDeps1 exDeps2 ∧
    mainOutput exDeps1 exRegNine ≠ mainOutput exDeps2 exRegNine :=
  ⟨by decide, by decide⟩

/-- C8 amended: with a fixed presentation order of the package and
dependency collections, two runs whose registry responses agree on every
declared dependency name produce the same finding sequence and the same
report content — every package name maps to an identical finding
sequence.  The rendered output order is outside this guarantee: the
program renders by iterating a freshly seeded hash map, whose per-run
entry order its inputs do not fix. -/
theorem scan_report_content_deterministic (deps : List (String × List Dep))
    (reg1 reg2 : Registry)
    (h : ∀ pkg ds, (pkg, ds) ∈ deps → ∀ d ∈ ds, reg1 d.name = reg2 d.name) :
    scan reg1 deps = scan reg2 deps ∧
    ∀ pkg : String, (aggregate (scan reg1 deps)).lookup pkg =
      (aggregate (scan reg2 deps)).lookup pkg := by
  have hs := scan_congr reg1 reg2 deps h
  exact ⟨hs, fun pkg => by rw [hs]⟩

def exRegNine' : Registry := fun n =>
  if n = "unrelated-crate" then Except.error FetchError.network else exRegNine n

theorem scan_report_content_deterministic_witness :
    scan exRegNine exDeps1 = scan exRegNine' exDeps1 ∧
    ∀ pkg : String, (aggregate (scan exRegNine exDeps1)).lookup pkg =
      (aggregate (scan exRegNine' exDeps1)).lookup pkg := by
  apply scan_report_content_deterministic exDeps1 exRegNine exRegNine'
  intro pkg ds hm d hd
  fin_cases hm <;> fin_cases hd <;> decide

/-- C9: within one package, the per-dependency result list is deduplicated
sequentially before merging: the kept results are a subsequence of the
original list (ordering unchanged), no two adjacent kept results are
equal, every produced result value still occurs, and a list with no
adjacent duplicates is kept in full. -/
theorem adjacent_dedup_per_package (reg : Registry) (pkg : String)
    (ds : List Dep) :
    (processPackage reg (pkg, ds)).Sublist (ds.map (processDep reg pkg)) ∧
    List.Chain' (fun a b => a ≠ b) (processPackage reg (pkg, ds)) ∧
    (∀ a, a ∈ ds.map (processDep reg pkg) → a ∈ processPackage reg (pkg, ds)) ∧
    (List.Chain' (fun a b => a ≠ b) (ds.map (processDep reg pkg)) →
      processPackage reg (pkg, ds) = ds.map (processDep reg pkg)) :=
  ⟨vecDedup_sublist _, vecDedup_chain' _,
   fun a ha => mem_vecDedup _ a ha,
   fun hc => vecDedup_eq_of_chain' _ hc⟩

def exDepDup1 : Dep :=
  ⟨"demo", ⟨[⟨Op.Caret, 1, some 0, none, []⟩]⟩, SourceKind.registry⟩

def exDepDup2 : Dep :=
  ⟨"demo", ⟨[⟨Op.Caret, 1, some 0, none, []⟩]⟩, SourceKind.other⟩

theorem adjacent_dedup_per_package_witness :
    processPackage exRegPre ("app", [exDepDup1, exDepDup2]) =
      [some ("app", ⟨"demo", "^1.0", "2.0.0-alpha"⟩)] ∧
    processPackage exRegPre ("app", [exDepDup1, exDepPath, exDepDup2]) =
      [some ("app", ⟨"demo", "^1.0", "2.0.0-alpha"⟩), none,
       some ("app", ⟨"demo", "^1.0", "2.0.0-alpha"⟩)] ∧
    processPackage exRegPre ("app", [exDepDup1, exDepPath]) =
      [exDepDup1, exDepPath].map (processDep exRegPre "app") :=
  ⟨by decide, by decide,
   (adjacent_dedup_per_package exRegPre "app" [exDepDup1, exDepPath]).2.2.2
     (by
       simp only [List.map, List.chain'_cons, List.chain'_singleton, and_true]
       decide)⟩
